import Mathlib

/-!
Shallow embedding of the `small_iter` crate (`src/lib.rs`): a 3-pointer
owned iterator `SmallIter<T>` over a boxed slice, with divergent handling
of zero-sized element types (ZSTs).

Modelling conventions:
* Addresses are `Nat`.  `sz` is `size_of::<T>()`; the non-ZST branches of
  the code use non-wrapping pointer arithmetic (`ptr::add`, `offset_from`),
  embedded as plain `Nat` arithmetic; the ZST branches use `wrapping_byte_add`
  / `wrapping_byte_sub` / `usize::wrapping_sub` on a 64-bit `usize`, embedded
  as arithmetic modulo `W = 2 ^ 64`.
* `dangling` stands for the address `NonNull::<T>::dangling()`.
* Typed memory is a function `mem : Nat → α` giving the `T` value read at a
  byte address; `mem` is only ever read/written at the element addresses
  `p + i * sz`, so a point-update model is faithful.
* Reading a ZST out of thin air (`NonNull::dangling().read()` in `next`)
  produces the value `conjure : α`.
* Moving a value out (`ptr::read`) does not alter the bytes, so `next`
  leaves `mem` unchanged.
* `Drop for SmallIter` is embedded as a trace of events (element-destructor
  runs and allocation releases) together with a panic flag, so that the
  teardown claims (which elements are destructed, whether the free runs
  under unwinding) are statable.
-/

namespace SmallIterSpec

/-- Size of the 64-bit `usize` address space. -/
def W : Nat := 2 ^ 64

/-- The iterator struct of `src/lib.rs`: fields `elements_start`,
`allocation_start` (both `NonNull<T>`) and `end` (`*const T`), as addresses. -/
structure SmallIter where
  elements_start : Nat
  allocation_start : Nat
  end_ : Nat
  deriving DecidableEq, Repr

/-- Embedding of `<Box<[T]> as IntoSmallIterExt>::into_small_iter`: `p` is the
address of the slice's first element, `n` its length.  ZST branch: both start
pointers are `dangling` and `end = dangling.wrapping_byte_add(n)`.  Non-ZST
branch: both start pointers are `p` and `end = p.add(n)` (that is,
`p + n * sz` in byte addresses). -/
def into_small_iter (sz dangling p n : Nat) : SmallIter :=
  if sz = 0 then
    { elements_start := dangling, allocation_start := dangling,
      end_ := (dangling + n) % W }
  else
    { elements_start := p, allocation_start := p, end_ := p + n * sz }

/-- Embedding of `SmallIter::elements_len`: ZST branch is
`(end as usize).wrapping_sub(elements_start as usize)`; non-ZST branch is
`end.offset_from(elements_start) as usize`, i.e. the byte difference divided
by the element size. -/
def SmallIter.elements_len (sz : Nat) (it : SmallIter) : Nat :=
  if sz = 0 then (it.end_ + (W - it.elements_start)) % W
  else (it.end_ - it.elements_start) / sz

/-- Embedding of `SmallIter::allocation_len`: `0` for ZSTs, otherwise
`end.offset_from(allocation_start) as usize`. -/
def SmallIter.allocation_len (sz : Nat) (it : SmallIter) : Nat :=
  if sz = 0 then 0
  else (it.end_ - it.allocation_start) / sz

/-- Embedding of `<SmallIter as Iterator>::next`.  Returns the yielded
`Option<T>` and the successor state.  The guard is `ptr::eq(elements_start,
end)`; the ZST branch does `end = end.wrapping_byte_sub(1)` and conjures a
value; the non-ZST branch reads the element at `elements_start` and advances
`elements_start` by one element. -/
def SmallIter.next {α : Type} (sz : Nat) (conjure : α) (mem : Nat → α)
    (it : SmallIter) : Option α × SmallIter :=
  if it.elements_start = it.end_ then
    (none, it)
  else if sz = 0 then
    (some conjure, { it with end_ := (it.end_ + (W - 1)) % W })
  else
    (some (mem it.elements_start),
      { it with elements_start := it.elements_start + sz })

/-- Embedding of `<SmallIter as Iterator>::size_hint`:
`(elements_len, Some(elements_len))`. -/
def SmallIter.size_hint (sz : Nat) (it : SmallIter) : Nat × Option Nat :=
  (it.elements_len sz, some (it.elements_len sz))

/-- Embedding of `<SmallIter as Iterator>::count`. -/
def SmallIter.count_ (sz : Nat) (it : SmallIter) : Nat :=
  it.elements_len sz

/-- Embedding of `SmallIter::as_slice`: the contents of
`slice::from_raw_parts(elements_start, elements_len)`.  Element `i` of the
view is the value at address `elements_start + i * sz` (for a ZST, the unique
value of the type, `conjure`). -/
def SmallIter.as_slice {α : Type} (sz : Nat) (conjure : α) (mem : Nat → α)
    (it : SmallIter) : List α :=
  (List.range (it.elements_len sz)).map
    (fun i => if sz = 0 then conjure else mem (it.elements_start + i * sz))

/-- Embedding of `SmallIter::as_mut_slice`: the same view as `as_slice`,
but obtained through `slice::from_raw_parts_mut`. -/
def SmallIter.as_mut_slice {α : Type} (sz : Nat) (conjure : α) (mem : Nat → α)
    (it : SmallIter) : List α :=
  (List.range (it.elements_len sz)).map
    (fun i => if sz = 0 then conjure else mem (it.elements_start + i * sz))

/-- Point update of typed memory: the effect of storing a `T` at address
`addr`. -/
def writeMem {α : Type} (mem : Nat → α) (addr : Nat) (v : α) : Nat → α :=
  fun a => if a = addr then v else mem a

/-- Storing `v` through `as_mut_slice()[i]` writes the value at address
`elements_start + i * sz`, the address slot `i` of the view aliases. -/
def write_via_mut_slice {α : Type} (sz : Nat) (mem : Nat → α) (it : SmallIter)
    (i : Nat) (v : α) : Nat → α :=
  writeMem mem (it.elements_start + i * sz) v

/-- Copying `m` elements of size `sz` from addresses `src + i * sz` to fresh
addresses `dst + i * sz`: the memory effect of `Box::<[T]>::from(slice)`
cloning each element of the view (clone of a value is modelled as a copy). -/
def copyRange {α : Type} (sz src dst : Nat) (mem : Nat → α) :
    Nat → (Nat → α)
  | 0 => mem
  | m + 1 => writeMem (copyRange sz src dst mem m) (dst + m * sz)
      (mem (src + m * sz))

/-- Embedding of `<SmallIter as Clone>::clone`:
`Box::<[T]>::from(self.as_slice()).into_small_iter()`.  `q` is the fresh
address the allocator hands to the new box (for a non-ZST with a non-empty
view).  Returns the memory after the element clones are stored, and the new
iterator. -/
def SmallIter.clone {α : Type} (sz dangling q : Nat) (mem : Nat → α)
    (it : SmallIter) : (Nat → α) × SmallIter :=
  (if sz = 0 then mem else copyRange sz it.elements_start q mem (it.elements_len sz),
    into_small_iter sz dangling q (it.elements_len sz))

/-- Embedding of `<SmallIter as Default>::default`:
`<Box<[T]>>::default().into_small_iter()` (an empty boxed slice, whose data
pointer is dangling). -/
def SmallIter.default_ (sz dangling : Nat) : SmallIter :=
  into_small_iter sz dangling dangling 0

/-- Observable teardown events: a run of the destructor of the element at an
address, and a release of `bytes` bytes of backing memory at `start`. -/
inductive Event where
  | dropElem (addr : Nat) : Event
  | free (start bytes : Nat) : Event
  deriving DecidableEq, Repr

/-- Whether an event is a memory release. -/
def Event.isFree : Event → Bool
  | .free _ _ => true
  | .dropElem _ => false

/-- Addresses of the elements destructed by
`ptr::drop_in_place(slice_from_raw_parts_mut(elements_start, elements_len))`. -/
def dropElemAddrs (sz : Nat) (it : SmallIter) : List Nat :=
  (List.range (it.elements_len sz)).map (fun i => it.elements_start + i * sz)

/-- Drop glue of a slice: runs each element's destructor in forward order;
if one panics the glue still destructs the remaining elements and then keeps
unwinding.  `panics addr` says whether the destructor of the element at
`addr` panics.  Returns the event trace and whether an unwind is in
progress afterwards. -/
def sliceDropEvents (panics : Nat → Bool) (addrs : List Nat) :
    List Event × Bool :=
  (addrs.map Event.dropElem, addrs.any panics)

/-- A scope guard registered before `body` runs: its events happen after the
body's, on the normal path and on the unwinding path alike. -/
def runGuarded (guard : List Event) (body : List Event × Bool) :
    List Event × Bool :=
  (body.1 ++ guard, body.2)

/-- Embedding of `<SmallIter as Drop>::drop`: a `DropGuard` releasing the
allocation `[allocation_start, end)` (as `Box<[ManuallyDrop<T>]>`, so
`allocation_len * sz` bytes, with no element destructors) is created first,
then the remaining elements are destructed in place; the guard runs when the
scope is left, normally or by unwinding. -/
def SmallIter.drop (sz : Nat) (panics : Nat → Bool) (it : SmallIter) :
    List Event × Bool :=
  runGuarded [Event.free it.allocation_start (it.allocation_len sz * sz)]
    (sliceDropEvents panics (dropElemAddrs sz it))

/-- Repeatedly calling `next` `k` times: the list of the `k` results and the
final state. -/
def runIter {α : Type} (sz : Nat) (conjure : α) (mem : Nat → α) :
    Nat → SmallIter → List (Option α) × SmallIter
  | 0, it => ([], it)
  | k + 1, it =>
    let s := it.next sz conjure mem
    let r := runIter sz conjure mem k s.2
    (s.1 :: r.1, r.2)

/-- The elements of the original array, in order: the value stored at each
element address (for a ZST, `n` copies of the unique value). -/
def origElems {α : Type} (sz : Nat) (conjure : α) (mem : Nat → α)
    (p n : Nat) : List α :=
  if sz = 0 then List.replicate n conjure
  else (List.range n).map (fun i => mem (p + i * sz))

example :
    (runIter 1 0 (fun a => a + 10) 5 (into_small_iter 1 1 100 3)).1
      = [some 110, some 111, some 112, none, none] := by decide

example :
    (runIter 0 7 (fun _ => 0) 5 (into_small_iter 0 1 100 3)).1
      = [some 7, some 7, some 7, none, none] := by decide

example :
    ((runIter 1 0 (fun a => a) 2 (into_small_iter 1 1 100 3)).2).size_hint 1
      = (1, some 1) := by decide

example :
    ((runIter 0 7 (fun _ => 0) 2 (into_small_iter 0 1 100 3)).2).as_slice 0 7 (fun _ => 0)
      = [7] := by decide

example :
    SmallIter.drop 4 (fun _ => false)
      ((runIter 4 0 (fun a => a) 1 (into_small_iter 4 1 100 3)).2)
      = ([Event.dropElem 104, Event.dropElem 108, Event.free 100 12], false) := by
  decide

example :
    SmallIter.drop 0 (fun _ => true)
      ((runIter 0 7 (fun _ => (0 : Nat)) 1 (into_small_iter 0 1 100 3)).2)
      = ([Event.dropElem 1, Event.dropElem 1, Event.free 1 0], true) := by
  decide

/-! Run lemmas: how `runIter` evolves the state. -/

theorem runIter_exhausted {α : Type} (sz : Nat) (conjure : α) (mem : Nat → α)
    (k : Nat) (it : SmallIter) (h : it.elements_start = it.end_) :
    runIter sz conjure mem k it = (List.replicate k none, it) := by
  induction k with
  | zero => rfl
  | succ k ih =>
    simp only [runIter, SmallIter.next, if_pos h, ih, List.replicate_succ]

theorem runIter_add {α : Type} (sz : Nat) (conjure : α) (mem : Nat → α)
    (k j : Nat) (it : SmallIter) :
    runIter sz conjure mem (k + j) it =
      ((runIter sz conjure mem k it).1 ++
        (runIter sz conjure mem j (runIter sz conjure mem k it).2).1,
       (runIter sz conjure mem j (runIter sz conjure mem k it).2).2) := by
  induction k generalizing it with
  | zero => simp [runIter]
  | succ k ih =>
    have : k + 1 + j = (k + j) + 1 := by omega
    rw [this]
    simp only [runIter, ih, List.cons_append]

theorem next_nz {α : Type} (sz : Nat) (conjure : α) (mem : Nat → α)
    (s a m : Nat) (hsz : 0 < sz) (hm : 0 < m) :
    SmallIter.next sz conjure mem ⟨s, a, s + m * sz⟩ =
      (some (mem s), ⟨s + sz, a, s + m * sz⟩) := by
  have hne : s ≠ s + m * sz := by
    have : 0 < m * sz := Nat.mul_pos hm hsz
    omega
  simp only [SmallIter.next, if_neg hne, if_neg (Nat.pos_iff_ne_zero.mp hsz)]

theorem runIter_nz {α : Type} (sz : Nat) (conjure : α) (mem : Nat → α)
    (hsz : 0 < sz) (k : Nat) :
    ∀ s a m : Nat, k ≤ m →
      runIter sz conjure mem k ⟨s, a, s + m * sz⟩ =
        ((List.range k).map (fun i => some (mem (s + i * sz))),
         ⟨s + k * sz, a, s + m * sz⟩) := by
  induction k with
  | zero => intro s a m _; simp [runIter]
  | succ k ih =>
    intro s a m hk
    have hm : 0 < m := by omega
    have hrw : s + m * sz = (s + sz) + (m - 1) * sz := by
      have : m * sz = sz + (m - 1) * sz := by
        rw [← Nat.succ_pred_eq_of_pos hm, Nat.succ_mul]
        simp [Nat.succ_pred_eq_of_pos hm, Nat.add_comm]
      omega
    simp only [runIter, next_nz sz conjure mem s a m hsz hm]
    rw [hrw, ih (s + sz) a (m - 1) (by omega)]
    simp only [Prod.mk.injEq]
    constructor
    · rw [List.range_succ_eq_map]
      simp only [List.map_cons, List.map_map, Nat.zero_mul, Nat.add_zero]
      congr 1
      apply List.map_congr_left
      intro i _
      simp only [Function.comp_apply, Nat.succ_mul]
      congr 2
      omega
    · have hms : m * sz = sz + (m - 1) * sz := by
        have h1 : m = 1 + (m - 1) := by omega
        calc m * sz = (1 + (m - 1)) * sz := by rw [← h1]
          _ = sz + (m - 1) * sz := by rw [Nat.add_mul, Nat.one_mul]
      simp only [SmallIter.mk.injEq, Nat.succ_mul]
      refine ⟨by omega, trivial, trivial⟩

theorem W_pos : 0 < W := by decide

theorem zst_end_ne (d m : Nat) (hd : d < W) (hm0 : 0 < m) (hm : m < W) :
    d ≠ (d + m) % W := by
  intro h
  rcases Nat.lt_or_ge (d + m) W with h1 | h1
  · rw [Nat.mod_eq_of_lt h1] at h; omega
  · have h2 : d + m - W < W := by omega
    rw [Nat.mod_eq_sub_mod h1, Nat.mod_eq_of_lt h2] at h
    omega

theorem zst_next_end (d m : Nat) (hm0 : 0 < m) :
    ((d + m) % W + (W - 1)) % W = (d + (m - 1)) % W := by
  rw [Nat.mod_add_mod]
  have hW : 0 < W := W_pos
  have h : d + m + (W - 1) = (d + (m - 1)) + W := by omega
  rw [h, Nat.add_mod_right]

theorem zst_len (d b m : Nat) (hd : d < W) (hm : m < W) :
    SmallIter.elements_len 0 ⟨d, b, (d + m) % W⟩ = m := by
  simp only [SmallIter.elements_len, reduceIte]
  rw [Nat.mod_add_mod]
  have h1 : d + m + (W - d) = m + W := by omega
  rw [h1, Nat.add_mod_right, Nat.mod_eq_of_lt hm]

theorem next_zst {α : Type} (conjure : α) (mem : Nat → α) (d b e : Nat)
    (h : d ≠ e) :
    SmallIter.next 0 conjure mem ⟨d, b, e⟩ =
      (some conjure, ⟨d, b, (e + (W - 1)) % W⟩) := by
  simp only [SmallIter.next, if_neg h, reduceIte]

theorem runIter_zst {α : Type} (conjure : α) (mem : Nat → α) (k : Nat) :
    ∀ d m : Nat, d < W → m < W → k ≤ m →
      runIter 0 conjure mem k ⟨d, d, (d + m) % W⟩ =
        (List.replicate k (some conjure), ⟨d, d, (d + (m - k)) % W⟩) := by
  induction k with
  | zero => intro d m hd hm hk; simp [runIter]
  | succ k ih =>
    intro d m hd hm hk
    have hm0 : 0 < m := by omega
    have hne : d ≠ (d + m) % W := zst_end_ne d m hd hm0 hm
    simp only [runIter, next_zst conjure mem d d ((d + m) % W) hne]
    rw [zst_next_end d m hm0, ih d (m - 1) hd (by omega) (by omega)]
    have h1 : m - 1 - k = m - (k + 1) := by omega
    rw [h1, List.replicate_succ]

theorem elements_len_nz (sz s a m : Nat) (hsz : 0 < sz) :
    SmallIter.elements_len sz ⟨s, a, s + m * sz⟩ = m := by
  simp only [SmallIter.elements_len, if_neg (Nat.pos_iff_ne_zero.mp hsz),
    Nat.add_sub_cancel_left]
  exact Nat.mul_div_cancel m hsz

theorem allocation_len_nz (sz s a m : Nat) (hsz : 0 < sz) :
    SmallIter.allocation_len sz ⟨s, a, a + m * sz⟩ = m := by
  simp only [SmallIter.allocation_len, if_neg (Nat.pos_iff_ne_zero.mp hsz),
    Nat.add_sub_cancel_left]
  exact Nat.mul_div_cancel m hsz

/-- State and outputs after `k` calls to `next` on a freshly constructed
iterator over a non-ZST slice at `p` of length `n`. -/
theorem runIter_into_nz {α : Type} (sz dangling p n k : Nat) (conjure : α)
    (mem : Nat → α) (hsz : 0 < sz) :
    runIter sz conjure mem k (into_small_iter sz dangling p n) =
      ((List.range (min k n)).map (fun i => some (mem (p + i * sz))) ++
        List.replicate (k - n) none,
       ⟨p + min k n * sz, p, p + n * sz⟩) := by
  have hinto : into_small_iter sz dangling p n = ⟨p, p, p + n * sz⟩ := by
    simp [into_small_iter, Nat.pos_iff_ne_zero.mp hsz]
  rw [hinto]
  rcases Nat.le_total k n with hk | hk
  · rw [Nat.min_eq_left hk, runIter_nz sz conjure mem hsz k p p n hk]
    have h0 : k - n = 0 := by omega
    rw [h0, List.replicate_zero, List.append_nil]
  · rw [Nat.min_eq_right hk]
    have hsplit : k = n + (k - n) := by omega
    rw [hsplit, runIter_add, runIter_nz sz conjure mem hsz n p p n (Nat.le_refl n),
      runIter_exhausted sz conjure mem (k - n) ⟨p + n * sz, p, p + n * sz⟩ rfl]
    have h2 : n + (k - n) - n = k - n := by omega
    rw [h2]

/-- State and outputs after `k` calls to `next` on a freshly constructed
iterator over a ZST slice of length `n`. -/
theorem runIter_into_zst {α : Type} (dangling p n k : Nat) (conjure : α)
    (mem : Nat → α) (hd : dangling < W) (hn : n < W) :
    runIter 0 conjure mem k (into_small_iter 0 dangling p n) =
      (List.replicate (min k n) (some conjure) ++ List.replicate (k - n) none,
       ⟨dangling, dangling, (dangling + (n - min k n)) % W⟩) := by
  have hinto : into_small_iter 0 dangling p n =
      ⟨dangling, dangling, (dangling + n) % W⟩ := by
    simp [into_small_iter]
  rw [hinto]
  rcases Nat.le_total k n with hk | hk
  · rw [Nat.min_eq_left hk, runIter_zst conjure mem k dangling n hd hn hk]
    have h0 : k - n = 0 := by omega
    rw [h0, List.replicate_zero, List.append_nil]
  · rw [Nat.min_eq_right hk]
    have hsplit : k = n + (k - n) := by omega
    rw [hsplit, runIter_add, runIter_zst conjure mem n dangling n hd hn (Nat.le_refl n)]
    have hend : (dangling + (n - n)) % W = dangling := by
      simp [Nat.mod_eq_of_lt hd]
    rw [hend,
      runIter_exhausted 0 conjure mem (k - n) ⟨dangling, dangling, dangling⟩ rfl]
    have h2 : n + (k - n) - n = k - n := by omega
    rw [h2]

/-- C1: for an owned array of length `n` converted via `into_small_iter`,
calling `next` `n + j` times yields exactly the `n` original elements in
order as `some` results followed by `j` `none`s; and after any number `k` of
calls, `size_hint` reports the exact remaining count `n - k` as both the
lower and the upper bound, `(0, some 0)` included after exhaustion. -/
theorem c1_yield_order_and_size_hint {α : Type} (sz dangling p n j k : Nat)
    (conjure : α) (mem : Nat → α)
    (hcase : 0 < sz ∨ (sz = 0 ∧ dangling < W ∧ n < W)) :
    (runIter sz conjure mem (n + j) (into_small_iter sz dangling p n)).1 =
      (origElems sz conjure mem p n).map some ++ List.replicate j none
    ∧ ((runIter sz conjure mem k (into_small_iter sz dangling p n)).2).size_hint sz
        = (n - k, some (n - k)) := by
  rcases hcase with hsz | ⟨hsz, hd, hn⟩
  · constructor
    · rw [runIter_into_nz sz dangling p n (n + j) conjure mem hsz]
      have h1 : min (n + j) n = n := by omega
      have h2 : n + j - n = j := by omega
      rw [h1, h2]
      simp [origElems, Nat.pos_iff_ne_zero.mp hsz, List.map_map, Function.comp]
    · rw [runIter_into_nz sz dangling p n k conjure mem hsz]
      have hmin : min k n ≤ n := Nat.min_le_right k n
      have hrw : p + n * sz = (p + min k n * sz) + (n - min k n) * sz := by
        have h3 : n * sz = min k n * sz + (n - min k n) * sz := by
          rw [← Nat.add_mul]
          congr 1
          omega
        omega
      rw [hrw]
      unfold SmallIter.size_hint
      rw [elements_len_nz sz (p + min k n * sz) p (n - min k n) hsz]
      have h4 : n - min k n = n - k := by omega
      rw [h4]
  · subst hsz
    constructor
    · rw [runIter_into_zst dangling p n (n + j) conjure mem hd hn]
      have h1 : min (n + j) n = n := by omega
      have h2 : n + j - n = j := by omega
      rw [h1, h2]
      simp [origElems, List.map_replicate]
    · rw [runIter_into_zst dangling p n k conjure mem hd hn]
      unfold SmallIter.size_hint
      rw [zst_len dangling dangling (n - min k n) hd (by omega)]
      have h4 : n - min k n = n - k := by omega
      rw [h4]

theorem c1_yield_order_and_size_hint_witness :
    (runIter 1 0 (fun a => a + 10) (3 + 2) (into_small_iter 1 1 100 3)).1 =
      (origElems 1 0 (fun a => a + 10) 100 3).map some ++ List.replicate 2 none
    ∧ ((runIter 1 0 (fun a => a + 10) 2 (into_small_iter 1 1 100 3)).2).size_hint 1
        = (3 - 2, some (3 - 2)) :=
  c1_yield_order_and_size_hint 1 1 100 3 2 2 0 (fun a => a + 10)
    (Or.inl (by decide))

/-- C4: construction from an owned boxed slice of length `n` sets
`allocation_start = elements_start`, with `elements_start` the dangling
placeholder for a ZST and the address of the first element otherwise, and
`end` equal to `elements_start + n` in wrapping byte arithmetic for a ZST
and to `elements_start + n * sizeof(T)` in true address arithmetic
otherwise. -/
theorem c4_construction_fields (sz dangling p n : Nat) :
    (into_small_iter sz dangling p n).allocation_start
        = (into_small_iter sz dangling p n).elements_start
    ∧ (into_small_iter sz dangling p n).elements_start
        = (if sz = 0 then dangling else p)
    ∧ (into_small_iter sz dangling p n).end_
        = (if sz = 0
           then ((into_small_iter sz dangling p n).elements_start + n) % W
           else (into_small_iter sz dangling p n).elements_start + n * sz) := by
  by_cases h : sz = 0 <;> simp [into_small_iter, h]

/-- C5: for a ZST, `allocation_start = elements_start` holds after
construction and is preserved by `next` and by `clone`; the remaining count
is decoded from the byte difference `end - elements_start`; and a
non-exhausted `next` shrinks `end` by exactly one byte, decrementing the
count by one. -/
theorem c5_zst_encoding {α : Type} (dangling p q n m : Nat) (conjure : α)
    (mem : Nat → α) (hd : dangling < W) (hm : m < W) (hm0 : 0 < m) :
    (into_small_iter 0 dangling p n).allocation_start
        = (into_small_iter 0 dangling p n).elements_start
    ∧ (SmallIter.next 0 conjure mem
        ⟨dangling, dangling, (dangling + m) % W⟩).2.allocation_start
        = (SmallIter.next 0 conjure mem
            ⟨dangling, dangling, (dangling + m) % W⟩).2.elements_start
    ∧ (SmallIter.clone 0 dangling q mem
        ⟨dangling, dangling, (dangling + m) % W⟩).2.allocation_start
        = (SmallIter.clone 0 dangling q mem
            ⟨dangling, dangling, (dangling + m) % W⟩).2.elements_start
    ∧ SmallIter.elements_len 0 ⟨dangling, dangling, (dangling + m) % W⟩ = m
    ∧ (SmallIter.next 0 conjure mem
        ⟨dangling, dangling, (dangling + m) % W⟩).2.end_
        = ((dangling + m) % W + (W - 1)) % W
    ∧ SmallIter.elements_len 0
        (SmallIter.next 0 conjure mem
          ⟨dangling, dangling, (dangling + m) % W⟩).2 = m - 1 := by
  have hne : dangling ≠ (dangling + m) % W := zst_end_ne dangling m hd hm0 hm
  rw [next_zst conjure mem dangling dangling ((dangling + m) % W) hne]
  refine ⟨?_, rfl, ?_, zst_len dangling dangling m hd hm, rfl, ?_⟩
  · simp [into_small_iter]
  · simp [SmallIter.clone, into_small_iter]
  · rw [zst_next_end dangling m hm0]
    exact zst_len dangling dangling (m - 1) hd (by omega)

theorem c5_zst_encoding_witness :
    (into_small_iter 0 1 100 3).allocation_start
        = (into_small_iter 0 1 100 3).elements_start
    ∧ (SmallIter.next 0 7 (fun _ => (7 : Nat))
        ⟨1, 1, (1 + 3) % W⟩).2.allocation_start
        = (SmallIter.next 0 7 (fun _ => (7 : Nat))
            ⟨1, 1, (1 + 3) % W⟩).2.elements_start
    ∧ (SmallIter.clone 0 1 200 (fun _ => (7 : Nat))
        ⟨1, 1, (1 + 3) % W⟩).2.allocation_start
        = (SmallIter.clone 0 1 200 (fun _ => (7 : Nat))
            ⟨1, 1, (1 + 3) % W⟩).2.elements_start
    ∧ SmallIter.elements_len 0 ⟨1, 1, (1 + 3) % W⟩ = 3
    ∧ (SmallIter.next 0 7 (fun _ => (7 : Nat)) ⟨1, 1, (1 + 3) % W⟩).2.end_
        = ((1 + 3) % W + (W - 1)) % W
    ∧ SmallIter.elements_len 0
        (SmallIter.next 0 7 (fun _ => (7 : Nat)) ⟨1, 1, (1 + 3) % W⟩).2 = 3 - 1 :=
  c5_zst_encoding 1 100 200 3 3 7 (fun _ => 7) (by decide) (by decide) (by decide)

/-- C6: for a non-ZST and a non-exhausted state, `next` leaves
`allocation_start` and `end` unchanged and advances `elements_start` by
exactly one element, so the range `[allocation_start, end)` is invariant. -/
theorem c6_next_preserves_allocation_range {α : Type} (sz : Nat) (conjure : α)
    (mem : Nat → α) (it : SmallIter) (hsz : 0 < sz)
    (h : it.elements_start ≠ it.end_) :
    (SmallIter.next sz conjure mem it).2.allocation_start = it.allocation_start
    ∧ (SmallIter.next sz conjure mem it).2.end_ = it.end_
    ∧ (SmallIter.next sz conjure mem it).2.elements_start
        = it.elements_start + sz := by
  simp [SmallIter.next, if_neg h, Nat.pos_iff_ne_zero.mp hsz]

theorem c6_next_preserves_allocation_range_witness :
    (SmallIter.next 4 0 (fun a => a) ⟨104, 100, 112⟩).2.allocation_start
        = (⟨104, 100, 112⟩ : SmallIter).allocation_start
    ∧ (SmallIter.next 4 0 (fun a => a) ⟨104, 100, 112⟩).2.end_
        = (⟨104, 100, 112⟩ : SmallIter).end_
    ∧ (SmallIter.next 4 0 (fun a => a) ⟨104, 100, 112⟩).2.elements_start
        = (⟨104, 100, 112⟩ : SmallIter).elements_start + 4 :=
  c6_next_preserves_allocation_range 4 0 (fun a => a) ⟨104, 100, 112⟩
    (by decide) (by decide)

/-- C8: on every reachable state, `next` is total and returns `none` exactly
when the remaining count is zero; otherwise it returns a `some` value. -/
theorem c8_none_iff_exhausted {α : Type} (sz dangling p n k : Nat)
    (conjure : α) (mem : Nat → α)
    (hcase : 0 < sz ∨ (sz = 0 ∧ dangling < W ∧ n < W)) :
    ((SmallIter.next sz conjure mem
        (runIter sz conjure mem k (into_small_iter sz dangling p n)).2).1 = none
      ↔ SmallIter.elements_len sz
          (runIter sz conjure mem k (into_small_iter sz dangling p n)).2 = 0) := by
  rcases hcase with hsz | ⟨hsz, hd, hn⟩
  · rw [runIter_into_nz sz dangling p n k conjure mem hsz]
    rcases Nat.eq_zero_or_pos (n - min k n) with hr | hr
    · have hend : p + n * sz = p + min k n * sz := by
        have : min k n = n := by omega
        rw [this]
      rw [hend]
      simp [SmallIter.next, SmallIter.elements_len, Nat.pos_iff_ne_zero.mp hsz]
    · have hend : p + n * sz = (p + min k n * sz) + (n - min k n) * sz := by
        have h3 : n * sz = min k n * sz + (n - min k n) * sz := by
          rw [← Nat.add_mul]
          congr 1
          omega
        omega
      rw [hend,
        next_nz sz conjure mem (p + min k n * sz) p (n - min k n) hsz hr,
        elements_len_nz sz (p + min k n * sz) p (n - min k n) hsz]
      simp
      omega
  · subst hsz
    rw [runIter_into_zst dangling p n k conjure mem hd hn]
    rcases Nat.eq_zero_or_pos (n - min k n) with hr | hr
    · have hend : (dangling + 0) % W = dangling := by
        simp [Nat.mod_eq_of_lt hd]
      rw [hr, hend]
      have hlen : SmallIter.elements_len 0 ⟨dangling, dangling, dangling⟩ = 0 := by
        simp only [SmallIter.elements_len, reduceIte]
        have h1 : dangling + (W - dangling) = W := by omega
        rw [h1, Nat.mod_self]
      rw [hlen]
      simp [SmallIter.next]
    · have hne : dangling ≠ (dangling + (n - min k n)) % W :=
        zst_end_ne dangling (n - min k n) hd hr (by omega)
      rw [next_zst conjure mem dangling dangling _ hne,
        zst_len dangling dangling (n - min k n) hd (by omega)]
      simp
      omega

theorem c8_none_iff_exhausted_witness :
    ((SmallIter.next 1 0 (fun a => a)
        (runIter 1 0 (fun a => a) 3 (into_small_iter 1 1 100 3)).2).1 = none
      ↔ SmallIter.elements_len 1
          (runIter 1 0 (fun a => a) 3 (into_small_iter 1 1 100 3)).2 = 0) :=
  c8_none_iff_exhausted 1 1 100 3 3 0 (fun a => a) (Or.inl (by decide))

theorem as_slice_nz {α : Type} (sz s a m : Nat) (conjure : α) (mem : Nat → α)
    (hsz : 0 < sz) :
    SmallIter.as_slice sz conjure mem ⟨s, a, s + m * sz⟩ =
      (List.range m).map (fun i => mem (s + i * sz)) := by
  have hne : ¬ sz = 0 := Nat.pos_iff_ne_zero.mp hsz
  simp only [SmallIter.as_slice, elements_len_nz sz s a m hsz, if_neg hne]

theorem as_slice_zst {α : Type} (d b m : Nat) (conjure : α) (mem : Nat → α)
    (hd : d < W) (hm : m < W) :
    SmallIter.as_slice 0 conjure mem ⟨d, b, (d + m) % W⟩ =
      List.replicate m conjure := by
  simp only [SmallIter.as_slice, zst_len d b m hd hm, reduceIte]
  rw [List.map_const', List.length_range]

theorem as_mut_slice_eq_as_slice {α : Type} (sz : Nat) (conjure : α)
    (mem : Nat → α) (it : SmallIter) :
    SmallIter.as_mut_slice sz conjure mem it =
      SmallIter.as_slice sz conjure mem it := rfl

/-- C3: after any `k` calls to `next`, `as_slice` and `as_mut_slice` return
exactly the not-yet-yielded suffix of the original array, for both a non-ZST
and a ZST element type; the view is recomputed from the live pointers, so
consumption is reflected immediately. -/
theorem c3_view_is_remaining_suffix {α : Type} (sz dangling p n k : Nat)
    (conjure : α) (mem : Nat → α)
    (hcase : 0 < sz ∨ (sz = 0 ∧ dangling < W ∧ n < W)) :
    SmallIter.as_slice sz conjure mem
        (runIter sz conjure mem k (into_small_iter sz dangling p n)).2
      = (origElems sz conjure mem p n).drop k
    ∧ SmallIter.as_mut_slice sz conjure mem
        (runIter sz conjure mem k (into_small_iter sz dangling p n)).2
      = (origElems sz conjure mem p n).drop k := by
  rw [as_mut_slice_eq_as_slice, and_self]
  rcases hcase with hsz | ⟨hsz, hd, hn⟩
  · rw [runIter_into_nz sz dangling p n k conjure mem hsz]
    have hne : ¬ sz = 0 := Nat.pos_iff_ne_zero.mp hsz
    rcases Nat.le_total k n with hk | hk
    · have hmin : min k n = k := by omega
      have hrw : p + n * sz = (p + k * sz) + (n - k) * sz := by
        have h3 : n * sz = k * sz + (n - k) * sz := by
          rw [← Nat.add_mul]
          congr 1
          omega
        omega
      have hsplit : n = k + (n - k) := by omega
      have hdrop : List.drop k ((List.range n).map (fun i => mem (p + i * sz)))
          = (List.range (n - k)).map (fun i => mem (p + (k + i) * sz)) := by
        conv_lhs => rw [hsplit]
        rw [List.range_add, List.map_append, List.drop_left' (by simp),
          List.map_map]
        apply List.map_congr_left
        intro i _
        simp [Function.comp]
      rw [hmin, hrw, as_slice_nz sz (p + k * sz) p (n - k) conjure mem hsz]
      unfold origElems
      rw [if_neg hne, hdrop]
      apply List.map_congr_left
      intro i _
      congr 1
      rw [Nat.add_mul]
      omega
    · have hmin : min k n = n := by omega
      have hempty : SmallIter.as_slice sz conjure mem
          ⟨p + n * sz, p, p + n * sz⟩ = [] := by
        simp [SmallIter.as_slice, SmallIter.elements_len, hne]
      rw [hmin, hempty, List.drop_eq_nil_of_le]
      simp [origElems, hne, hk]
  · subst hsz
    rw [runIter_into_zst dangling p n k conjure mem hd hn]
    rw [as_slice_zst dangling dangling (n - min k n) conjure mem hd (by omega)]
    unfold origElems
    rw [if_pos rfl, List.drop_replicate]
    congr 1
    omega

theorem c3_view_is_remaining_suffix_witness :
    SmallIter.as_slice 1 0 (fun a => a + 10)
        (runIter 1 0 (fun a => a + 10) 2 (into_small_iter 1 1 100 3)).2
      = (origElems 1 0 (fun a => a + 10) 100 3).drop 2
    ∧ SmallIter.as_mut_slice 1 0 (fun a => a + 10)
        (runIter 1 0 (fun a => a + 10) 2 (into_small_iter 1 1 100 3)).2
      = (origElems 1 0 (fun a => a + 10) 100 3).drop 2 :=
  c3_view_is_remaining_suffix 1 1 100 3 2 0 (fun a => a + 10)
    (Or.inl (by decide))

theorem map_range_write {α : Type} (sz s m i : Nat) (v : α) (mem : Nat → α)
    (hsz : 0 < sz) :
    (List.range m).map (fun j => writeMem mem (s + i * sz) v (s + j * sz))
      = ((List.range m).map (fun j => mem (s + j * sz))).set i v := by
  apply List.ext_getElem
  · simp
  · intro j h1 h2
    simp only [List.getElem_map, List.getElem_range, List.getElem_set]
    by_cases hj : i = j
    · subst hj
      simp [writeMem]
    · have haddr : s + j * sz ≠ s + i * sz := by
        intro h
        exact hj (Nat.mul_right_cancel hsz (Nat.add_left_cancel h)).symm
      simp [writeMem, haddr, hj]

/-- C9: for a non-ZST state with `m` remaining elements and `i < m`, writing
`v` through `as_mut_slice` at position `i` is observed: `as_slice` shows `v`
at position `i` immediately, and the `i`-th subsequent `next` call (counting
from 0) returns `v` — the views alias the live backing storage. -/
theorem c9_mut_write_observed {α : Type} (sz s a m i : Nat) (v : α)
    (conjure : α) (mem : Nat → α) (hsz : 0 < sz) (hi : i < m) :
    SmallIter.as_slice sz conjure
        (write_via_mut_slice sz mem ⟨s, a, s + m * sz⟩ i v) ⟨s, a, s + m * sz⟩
      = (SmallIter.as_slice sz conjure mem ⟨s, a, s + m * sz⟩).set i v
    ∧ ((runIter sz conjure
          (write_via_mut_slice sz mem ⟨s, a, s + m * sz⟩ i v) m
          ⟨s, a, s + m * sz⟩).1)[i]?
      = some (some v) := by
  constructor
  · rw [as_slice_nz sz s a m conjure mem hsz,
      as_slice_nz sz s a m conjure (write_via_mut_slice sz mem ⟨s, a, s + m * sz⟩ i v) hsz]
    exact map_range_write sz s m i v mem hsz
  · rw [runIter_nz sz conjure (write_via_mut_slice sz mem ⟨s, a, s + m * sz⟩ i v)
      hsz m s a m (Nat.le_refl m)]
    rw [List.getElem?_map, List.getElem?_range hi]
    simp [write_via_mut_slice, writeMem]

theorem c9_mut_write_observed_witness :
    SmallIter.as_slice 1 0
        (write_via_mut_slice 1 (fun a => a + 10) ⟨100, 100, 100 + 3 * 1⟩ 1 99)
        ⟨100, 100, 100 + 3 * 1⟩
      = (SmallIter.as_slice 1 0 (fun a => a + 10) ⟨100, 100, 100 + 3 * 1⟩).set 1 99
    ∧ ((runIter 1 0
          (write_via_mut_slice 1 (fun a => a + 10) ⟨100, 100, 100 + 3 * 1⟩ 1 99) 3
          ⟨100, 100, 100 + 3 * 1⟩).1)[1]?
      = some (some 99) :=
  c9_mut_write_observed 1 100 100 3 1 99 0 (fun a => a + 10)
    (by decide) (by decide)

theorem countP_range_shift (r kk i : Nat) :
    (List.range r).countP (fun j => decide (kk + j = i)) =
      if kk ≤ i ∧ i < kk + r then 1 else 0 := by
  induction r with
  | zero =>
    simp only [List.range_zero, List.countP_nil]
    rw [if_neg (by omega)]
  | succ r ih =>
    rw [List.range_succ, List.countP_append, ih, List.countP_cons,
      List.countP_nil]
    simp only [decide_eq_true_eq, Nat.zero_add]
    split_ifs <;> omega

theorem count_dropElem_map (addrs : List Nat) (t : Nat) :
    (addrs.map Event.dropElem).count (Event.dropElem t) = addrs.count t := by
  rw [List.count_eq_countP, List.countP_map, List.count_eq_countP]
  apply List.countP_congr
  intro a _
  simp [Function.comp]

theorem count_dropElem_state (sz s k i r : Nat) (hsz : 0 < sz) :
    (((List.range r).map (fun j => s + k * sz + j * sz)).count (s + i * sz)) =
      if k ≤ i ∧ i < k + r then 1 else 0 := by
  rw [List.count_eq_countP, List.countP_map, ← countP_range_shift r k i]
  apply List.countP_congr
  intro j _
  simp only [Function.comp_apply, beq_iff_eq, decide_eq_true_eq]
  constructor
  · intro h
    have h2 : (k + j) * sz = i * sz := by
      rw [Nat.add_mul]
      omega
    exact Nat.mul_right_cancel hsz h2
  · intro h
    have h2 : (k + j) * sz = i * sz := by rw [h]
    rw [Nat.add_mul] at h2
    omega

/-- C2: dropping the iterator after `k` of `n` elements have been yielded
runs the element destructor of exactly the remaining `n - k` elements exactly
once each, whatever the destructor-panic behaviour, and releases the backing
allocation exactly once as the final event of the teardown (the release is a
scope guard registered before element destruction, so it runs on the normal
and on the unwinding path alike); for a ZST the release is of zero bytes. -/
theorem c2_drop_destructs_remaining_and_frees_once {α : Type}
    (sz dangling p n k i : Nat) (conjure : α) (mem : Nat → α)
    (panics : Nat → Bool)
    (hcase : 0 < sz ∨ (sz = 0 ∧ dangling < W ∧ n < W))
    (hk : k ≤ n) (hi : i < n) :
    (SmallIter.drop sz panics
        (runIter sz conjure mem k (into_small_iter sz dangling p n)).2).1.countP
        Event.isFree = 1
    ∧ (0 < sz →
        (SmallIter.drop sz panics
          (runIter sz conjure mem k (into_small_iter sz dangling p n)).2).1.getLast?
          = some (Event.free p (n * sz)))
    ∧ (0 < sz →
        (SmallIter.drop sz panics
          (runIter sz conjure mem k (into_small_iter sz dangling p n)).2).1.count
          (Event.dropElem (p + i * sz)) = if k ≤ i then 1 else 0)
    ∧ (sz = 0 →
        (SmallIter.drop sz panics
          (runIter sz conjure mem k (into_small_iter sz dangling p n)).2).1.getLast?
          = some (Event.free dangling 0))
    ∧ (sz = 0 →
        (SmallIter.drop sz panics
          (runIter sz conjure mem k (into_small_iter sz dangling p n)).2).1.countP
          (fun e => !e.isFree) = n - k) := by
  rcases hcase with hsz | ⟨hsz, hd, hn⟩
  · rw [runIter_into_nz sz dangling p n k conjure mem hsz]
    have hmin : min k n = k := by omega
    have hrw : p + n * sz = (p + k * sz) + (n - k) * sz := by
      have h3 : n * sz = k * sz + (n - k) * sz := by
        rw [← Nat.add_mul]
        congr 1
        omega
      omega
    rw [hmin]
    have hlen : SmallIter.elements_len sz ⟨p + k * sz, p, p + n * sz⟩ = n - k := by
      rw [hrw]
      exact elements_len_nz sz (p + k * sz) p (n - k) hsz
    have halloc : SmallIter.allocation_len sz ⟨p + k * sz, p, p + n * sz⟩ = n := by
      exact allocation_len_nz sz (p + k * sz) p n hsz
    unfold SmallIter.drop runGuarded sliceDropEvents dropElemAddrs
    rw [hlen, halloc]
    refine ⟨?_, ?_, ?_, ?_, ?_⟩
    · rw [List.countP_append, List.countP_map]
      simp [Function.comp, Event.isFree]
    · intro _
      exact List.getLast?_concat _
    · intro _
      rw [List.count_append]
      have hone : ([Event.free p (n * sz)].count (Event.dropElem (p + i * sz))) = 0 := by
        simp
      rw [hone, Nat.add_zero, count_dropElem_map, count_dropElem_state sz p k i (n - k) hsz]
      have hcond : (k ≤ i ∧ i < k + (n - k)) ↔ k ≤ i := by omega
      simp [hcond]
    · intro h
      omega
    · intro h
      omega
  · subst hsz
    rw [runIter_into_zst dangling p n k conjure mem hd hn]
    have hmin : min k n = k := by omega
    rw [hmin]
    have hlen : SmallIter.elements_len 0
        ⟨dangling, dangling, (dangling + (n - k)) % W⟩ = n - k :=
      zst_len dangling dangling (n - k) hd (by omega)
    unfold SmallIter.drop runGuarded sliceDropEvents dropElemAddrs
    rw [hlen]
    have halloc : SmallIter.allocation_len 0
        ⟨dangling, dangling, (dangling + (n - k)) % W⟩ = 0 := by
      simp [SmallIter.allocation_len]
    rw [halloc]
    refine ⟨?_, ?_, ?_, ?_, ?_⟩
    · rw [List.countP_append, List.countP_map]
      simp [Function.comp, Event.isFree]
    · intro h
      omega
    · intro h
      omega
    · intro _
      rw [show (0 : Nat) * 0 = 0 from rfl]
      exact List.getLast?_concat _
    · intro _
      rw [List.countP_append, List.countP_map]
      have hcomp : ((fun e : Event => !Event.isFree e) ∘ Event.dropElem)
          = fun _ => true := by
        funext a
        simp [Event.isFree]
      rw [hcomp]
      simp [Event.isFree]

theorem c2_drop_destructs_remaining_and_frees_once_witness :
    (SmallIter.drop 4 (fun a => a == 108)
        (runIter 4 0 (fun a => a) 1 (into_small_iter 4 1 100 3)).2).1.countP
        Event.isFree = 1
    ∧ ((0 : Nat) < 4 →
        (SmallIter.drop 4 (fun a => a == 108)
          (runIter 4 0 (fun a => a) 1 (into_small_iter 4 1 100 3)).2).1.getLast?
          = some (Event.free 100 (3 * 4)))
    ∧ ((0 : Nat) < 4 →
        (SmallIter.drop 4 (fun a => a == 108)
          (runIter 4 0 (fun a => a) 1 (into_small_iter 4 1 100 3)).2).1.count
          (Event.dropElem (100 + 2 * 4)) = if 1 ≤ 2 then 1 else 0)
    ∧ ((4 : Nat) = 0 →
        (SmallIter.drop 4 (fun a => a == 108)
          (runIter 4 0 (fun a => a) 1 (into_small_iter 4 1 100 3)).2).1.getLast?
          = some (Event.free 1 0))
    ∧ ((4 : Nat) = 0 →
        (SmallIter.drop 4 (fun a => a == 108)
          (runIter 4 0 (fun a => a) 1 (into_small_iter 4 1 100 3)).2).1.countP
          (fun e => !e.isFree) = 3 - 1) :=
  c2_drop_destructs_remaining_and_frees_once 4 1 100 3 1 2 0 (fun a => a)
    (fun a => a == 108) (Or.inl (by decide)) (by decide) (by decide)

theorem copyRange_read_out {α : Type} (sz src dst : Nat) (mem : Nat → α) :
    ∀ m a : Nat, (∀ j, j < m → a ≠ dst + j * sz) →
      copyRange sz src dst mem m a = mem a := by
  intro m
  induction m with
  | zero => intro a _; rfl
  | succ m ih =>
    intro a ha
    simp only [copyRange, writeMem]
    rw [if_neg (ha m (by omega))]
    exact ih a (fun j hj => ha j (by omega))

theorem copyRange_read_in {α : Type} (sz src dst : Nat) (mem : Nat → α)
    (hsz : 0 < sz) :
    ∀ m i : Nat, i < m →
      copyRange sz src dst mem m (dst + i * sz) = mem (src + i * sz) := by
  intro m
  induction m with
  | zero => intro i hi; omega
  | succ m ih =>
    intro i hi
    simp only [copyRange, writeMem]
    by_cases h : i = m
    · subst h
      rw [if_pos rfl]
    · have hne : dst + i * sz ≠ dst + m * sz := by
        intro hc
        exact h (Nat.mul_right_cancel hsz (Nat.add_left_cancel hc))
      rw [if_neg hne]
      exact ih i (by omega)

/-- C7: cloning an iterator `it` with `m` remaining elements produces an
independent iterator over a freshly owned copy of the remaining view: both
iterators yield the same remaining sequence (the remaining view of the
original) and report the same remaining count, for a non-ZST state
`⟨s, a, s + m*sz⟩` cloned into a disjoint fresh block at `q` and for a ZST
state in the dangling-plus-byte-count encoding alike; and for a non-ZST a
write through either iterator's mutable view leaves the other's view
unchanged. -/
theorem c7_clone_independent {α : Type} (sz dangling s a q m i : Nat)
    (v conjure : α) (mem : Nat → α) (it : SmallIter) (him : i < m)
    (hstate :
      (0 < sz ∧ it = ⟨s, a, s + m * sz⟩ ∧
        ∀ x y : Nat, x < m → y < m → s + x * sz ≠ q + y * sz)
      ∨ (sz = 0 ∧ it = ⟨dangling, dangling, (dangling + m) % W⟩ ∧
          dangling < W ∧ m < W)) :
    (runIter sz conjure (SmallIter.clone sz dangling q mem it).1
        m (SmallIter.clone sz dangling q mem it).2).1
      = (SmallIter.as_slice sz conjure mem it).map some
    ∧ (runIter sz conjure (SmallIter.clone sz dangling q mem it).1 m it).1
      = (SmallIter.as_slice sz conjure mem it).map some
    ∧ (SmallIter.clone sz dangling q mem it).2.size_hint sz
      = it.size_hint sz
    ∧ (0 < sz →
        SmallIter.as_slice sz conjure
          (write_via_mut_slice sz (SmallIter.clone sz dangling q mem it).1
            (SmallIter.clone sz dangling q mem it).2 i v) it
        = SmallIter.as_slice sz conjure mem it)
    ∧ (0 < sz →
        SmallIter.as_slice sz conjure
          (write_via_mut_slice sz (SmallIter.clone sz dangling q mem it).1 it i v)
          (SmallIter.clone sz dangling q mem it).2
        = SmallIter.as_slice sz conjure
            (SmallIter.clone sz dangling q mem it).1
            (SmallIter.clone sz dangling q mem it).2) := by
  rcases hstate with ⟨hsz, hit, hdisj⟩ | ⟨hsz, hit, hd, hm⟩
  · subst hit
    have hne : ¬ sz = 0 := Nat.pos_iff_ne_zero.mp hsz
    have hcl : SmallIter.clone sz dangling q mem ⟨s, a, s + m * sz⟩
        = (copyRange sz s q mem m, ⟨q, q, q + m * sz⟩) := by
      unfold SmallIter.clone
      rw [elements_len_nz sz s a m hsz]
      simp [into_small_iter, hne]
    rw [hcl]
    refine ⟨?_, ?_, ?_, ?_, ?_⟩
    · rw [runIter_nz sz conjure (copyRange sz s q mem m) hsz m q q m (Nat.le_refl m),
        as_slice_nz sz s a m conjure mem hsz, List.map_map]
      apply List.map_congr_left
      intro t ht
      rw [List.mem_range] at ht
      simp only [Function.comp_apply]
      rw [copyRange_read_in sz s q mem hsz m t ht]
    · rw [runIter_nz sz conjure (copyRange sz s q mem m) hsz m s a m (Nat.le_refl m),
        as_slice_nz sz s a m conjure mem hsz, List.map_map]
      apply List.map_congr_left
      intro t ht
      rw [List.mem_range] at ht
      simp only [Function.comp_apply]
      rw [copyRange_read_out sz s q mem m (s + t * sz)
        (fun j hj => hdisj t j ht hj)]
    · unfold SmallIter.size_hint
      rw [elements_len_nz sz q q m hsz, elements_len_nz sz s a m hsz]
    · intro _
      rw [as_slice_nz sz s a m conjure _ hsz, as_slice_nz sz s a m conjure mem hsz]
      apply List.map_congr_left
      intro t ht
      rw [List.mem_range] at ht
      unfold write_via_mut_slice writeMem
      rw [if_neg (hdisj t i ht him)]
      show copyRange sz s q mem m (s + t * sz) = mem (s + t * sz)
      rw [copyRange_read_out sz s q mem m (s + t * sz)
        (fun j hj => hdisj t j ht hj)]
    · intro _
      rw [as_slice_nz sz q q m conjure _ hsz, as_slice_nz sz q q m conjure _ hsz]
      apply List.map_congr_left
      intro t ht
      rw [List.mem_range] at ht
      unfold write_via_mut_slice writeMem
      rw [if_neg (fun hc => hdisj i t him ht hc.symm)]
  · subst hsz
    subst hit
    have hcl : SmallIter.clone 0 dangling q mem
        ⟨dangling, dangling, (dangling + m) % W⟩
        = (mem, ⟨dangling, dangling, (dangling + m) % W⟩) := by
      unfold SmallIter.clone
      rw [zst_len dangling dangling m hd hm]
      simp [into_small_iter]
    rw [hcl]
    have hrun := runIter_zst conjure mem m dangling m hd hm (Nat.le_refl m)
    have hslice := as_slice_zst dangling dangling m conjure mem hd hm
    refine ⟨?_, ?_, rfl, ?_, ?_⟩
    · rw [hrun, hslice, List.map_replicate]
    · rw [hrun, hslice, List.map_replicate]
    · intro h
      omega
    · intro h
      omega

theorem c7_clone_independent_witness :
    (runIter 1 0 (SmallIter.clone 1 1 200 (fun x => x) ⟨100, 100, 100 + 2 * 1⟩).1
        2 (SmallIter.clone 1 1 200 (fun x => x) ⟨100, 100, 100 + 2 * 1⟩).2).1
      = (SmallIter.as_slice 1 0 (fun x => x) ⟨100, 100, 100 + 2 * 1⟩).map some
    ∧ (runIter 1 0 (SmallIter.clone 1 1 200 (fun x => x) ⟨100, 100, 100 + 2 * 1⟩).1
        2 ⟨100, 100, 100 + 2 * 1⟩).1
      = (SmallIter.as_slice 1 0 (fun x => x) ⟨100, 100, 100 + 2 * 1⟩).map some
    ∧ (SmallIter.clone 1 1 200 (fun x => x) ⟨100, 100, 100 + 2 * 1⟩).2.size_hint 1
      = SmallIter.size_hint 1 ⟨100, 100, 100 + 2 * 1⟩
    ∧ ((0 : Nat) < 1 →
        SmallIter.as_slice 1 0
          (write_via_mut_slice 1 (SmallIter.clone 1 1 200 (fun x => x) ⟨100, 100, 100 + 2 * 1⟩).1
            (SmallIter.clone 1 1 200 (fun x => x) ⟨100, 100, 100 + 2 * 1⟩).2 0 55)
          ⟨100, 100, 100 + 2 * 1⟩
        = SmallIter.as_slice 1 0 (fun x => x) ⟨100, 100, 100 + 2 * 1⟩)
    ∧ ((0 : Nat) < 1 →
        SmallIter.as_slice 1 0
          (write_via_mut_slice 1 (SmallIter.clone 1 1 200 (fun x => x) ⟨100, 100, 100 + 2 * 1⟩).1
            ⟨100, 100, 100 + 2 * 1⟩ 0 55)
          (SmallIter.clone 1 1 200 (fun x => x) ⟨100, 100, 100 + 2 * 1⟩).2
        = SmallIter.as_slice 1 0
            (SmallIter.clone 1 1 200 (fun x => x) ⟨100, 100, 100 + 2 * 1⟩).1
            (SmallIter.clone 1 1 200 (fun x => x) ⟨100, 100, 100 + 2 * 1⟩).2) :=
  c7_clone_independent 1 1 100 100 200 2 0 55 0 (fun x => x)
    ⟨100, 100, 100 + 2 * 1⟩ (by decide)
    (Or.inl ⟨by decide, rfl, by intro x y hx hy; omega⟩)
end SmallIterSpec
